import Mathlib

/-!
Verification of the live playback engine of the PlaylistManager repository.

The engine lives in `src/app/player.py` as module-level mutable state
(`queue`, `current`, `elapsed`, `is_paused`, `loop_track`, `loop_playlist`,
`playlist_mode`, `playlist_tracks`, `playlist_index`) plus the functions
operating on it.  We embed that state as the structure `PlayerState` and each
function as a pure state transformer.  The database lookups
(`db.get(Track, id)`, `db.get(Playlist, id)`, `db.query(...).filter_by(name=...)`,
`db.query(Album).get(id)`) are abstracted as a `Catalog` of partial lookup
functions, exactly the collaborator interface the engine consumes.

Python list indexing `xs[i]` raises `IndexError` when out of range; the
functions that can hit that (`next_track` and everything calling it) therefore
return `Option`, with `none` standing for the uncaught exception.
-/

namespace PlaylistManager

/-- A catalog track: `id`, `title`, `duration` (seconds), mirroring the
fields of `app.models.Track` that the player reads. -/
structure Track where
  id : Nat
  title : String
  duration : Nat
  deriving Repr, DecidableEq

/-- The module-level player state of `src/app/player.py`. -/
structure PlayerState where
  queue : List Track
  current : Option Track
  elapsed : Nat
  is_paused : Bool
  loop_track : Bool
  loop_playlist : Bool
  playlist_mode : Bool
  playlist_tracks : List Track
  playlist_index : Nat
  deriving Repr, DecidableEq

/-- The state at module import time (and after `reset()`): empty queue, no
current track, everything cleared. -/
def initState : PlayerState :=
  { queue := [], current := none, elapsed := 0, is_paused := false,
    loop_track := false, loop_playlist := false, playlist_mode := false,
    playlist_tracks := [], playlist_index := 0 }

/-- The catalog-lookup collaborator: `getTrack` models `db.get(Track, id)`;
the three list lookups model resolving a playlist (by id / by name) or an
album to its ordered `.tracks` list, `none` meaning the entity is absent. -/
structure Catalog where
  getTrack : Nat → Option Track
  playlistTracksById : Nat → Option (List Track)
  playlistTracksByName : String → Option (List Track)
  albumTracks : Nat → Option (List Track)

/-- `player.reset()`: back to the initial state. -/
def reset (_s : PlayerState) : PlayerState := initState

/-- `player.is_stopped()`. -/
def is_stopped (s : PlayerState) : Bool := s.current.isNone

/-- `player.reset_loops()`. -/
def reset_loops (s : PlayerState) : PlayerState :=
  { s with loop_track := false, loop_playlist := false }

/-- `player.stop_all()`: clears `current`, `elapsed`, `playlist_mode`,
`is_paused` and both loop flags; leaves `queue`, `playlist_tracks` and
`playlist_index` untouched. -/
def stop_all (s : PlayerState) : PlayerState :=
  reset_loops { s with current := none, elapsed := 0, playlist_mode := false,
                       is_paused := false }

/-- `player.stop()` (the pause operation): sets `is_paused` only when a track
is current. -/
def stop (s : PlayerState) : PlayerState :=
  match s.current with
  | none => s
  | some _ => { s with is_paused := true }

/-- `player.next_track()`.  Returns `none` for the `IndexError` that the
Python code would raise on `playlist_tracks[playlist_index]` when the list
is empty in the `loop_playlist` wrap-around branch; otherwise `some` of the
new state and the returned track (itself an `Option Track`).  In the
end-of-selection stop branch the `playlist_index += 1` write persists
(`stop_all()` does not reset the index). -/
def next_track (s : PlayerState) : Option (PlayerState × Option Track) :=
  if s.playlist_mode then
    let i := s.playlist_index + 1
    if i ≥ s.playlist_tracks.length then
      if s.loop_playlist then
        match s.playlist_tracks[0]? with
        | none => none
        | some t =>
            some ({ s with elapsed := 0, is_paused := false,
                           playlist_index := 0, current := some t }, some t)
      else
        some (stop_all { s with elapsed := 0, is_paused := false,
                                playlist_index := s.playlist_index + 1 },
          none)
    else
      match s.playlist_tracks[i]? with
      | none => none
      | some t =>
          some ({ s with elapsed := 0, is_paused := false,
                         playlist_index := i, current := some t }, some t)
  else
    match s.queue with
    | [] => some (stop_all { s with elapsed := 0, is_paused := false }, none)
    | t :: rest =>
        some ({ s with elapsed := 0, is_paused := false,
                       queue := rest, current := some t }, some t)

/-- `player.play()`: delegates to `next_track` when stopped, otherwise just
clears the pause flag. -/
def play (s : PlayerState) : Option (PlayerState × Option Track) :=
  match s.current with
  | none => next_track s
  | some c => some ({ s with is_paused := false }, some c)

/-- `player.skip()`. -/
def skip (s : PlayerState) : Option (PlayerState × Option Track) :=
  next_track s

/-- `player.tick()`: no-op when stopped or paused; otherwise advance
`elapsed` by one second, and at the end of the track either replay it
(`loop_track`) or advance. -/
def tick (s : PlayerState) : Option (PlayerState × Option Track) :=
  match s.current with
  | none => some (s, none)
  | some c =>
    if s.is_paused then
      some (s, some c)
    else
      if s.elapsed + 1 < c.duration then
        some ({ s with elapsed := s.elapsed + 1 }, some c)
      else
        if s.loop_track then
          some ({ s with elapsed := 0 }, some c)
        else
          next_track { s with elapsed := s.elapsed + 1 }

/-- `player.add_to_queue(track_id)`: appends the resolved track; silently
no-op when the id is unknown; auto-plays when nothing is current. -/
def add_to_queue (cat : Catalog) (track_id : Nat) (s : PlayerState) :
    Option PlayerState :=
  match cat.getTrack track_id with
  | none => some s
  | some t =>
    let s1 := { s with queue := s.queue ++ [t] }
    match s1.current with
    | none => (play s1).map Prod.fst
    | some _ => some s1

/-- Removes the first list entry whose `id` matches, reporting whether one
did; the loop body of `player.remove_from_queue`. -/
def removeFirstById (track_id : Nat) : List Track → List Track × Bool
  | [] => ([], false)
  | t :: rest =>
    if t.id = track_id then (rest, true)
    else
      let r := removeFirstById track_id rest
      (t :: r.1, r.2)

/-- `player.remove_from_queue(track_id)`: drops the first queue entry with
the given id and reports whether a removal happened. -/
def remove_from_queue (track_id : Nat) (s : PlayerState) : PlayerState × Bool :=
  let r := removeFirstById track_id s.queue
  ({ s with queue := r.1 }, r.2)

/-- `player.select_track(track_id)`: unknown id is a pure no-op returning
`None`; otherwise leaves playlist mode, clears both loops, starts the track
from zero, unpaused.  The queue is not touched. -/
def select_track (cat : Catalog) (track_id : Nat) (s : PlayerState) :
    PlayerState × Option Track :=
  match cat.getTrack track_id with
  | none => (s, none)
  | some t =>
      ({ s with playlist_mode := false, loop_track := false,
                loop_playlist := false, current := some t, elapsed := 0,
                is_paused := false }, some t)

/-- `player._select_playlist(tracks, loop)`.  Both callers guard
`not playlist.tracks`, so `tracks` is never empty at a call site; the Python
`tracks[0]` is rendered as `tracks.head?`, which agrees with it on every
actual call.  Note that `loop_track` is NOT modified here. -/
def selectPlaylistTracks (tracks : List Track) (loop : Bool) (s : PlayerState) :
    PlayerState × Option Track :=
  ({ s with playlist_mode := true, playlist_tracks := tracks,
            playlist_index := 0, loop_playlist := loop, queue := [],
            current := tracks.head?, elapsed := 0, is_paused := false },
   tracks.head?)

/-- `player.select_playlist_by_id(playlist_id, loop)`: no-op returning `None`
when the playlist is absent or its track list empty. -/
def select_playlist_by_id (cat : Catalog) (playlist_id : Nat) (loop : Bool)
    (s : PlayerState) : PlayerState × Option Track :=
  match cat.playlistTracksById playlist_id with
  | none => (s, none)
  | some tracks =>
    if tracks.isEmpty then (s, none) else selectPlaylistTracks tracks loop s

/-- `player.select_playlist_by_name(name, loop)`. -/
def select_playlist_by_name (cat : Catalog) (name : String) (loop : Bool)
    (s : PlayerState) : PlayerState × Option Track :=
  match cat.playlistTracksByName name with
  | none => (s, none)
  | some tracks =>
    if tracks.isEmpty then (s, none) else selectPlaylistTracks tracks loop s

/-- `player.select_album_by_id(album_id, loop)`: like a playlist selection
but it additionally clears `loop_track` and — unlike `_select_playlist` —
does NOT touch `is_paused`. -/
def select_album_by_id (cat : Catalog) (album_id : Nat) (loop : Bool)
    (s : PlayerState) : PlayerState × Option Track :=
  match cat.albumTracks album_id with
  | none => (s, none)
  | some tracks =>
    if tracks.isEmpty then (s, none)
    else
      ({ s with playlist_mode := true, playlist_tracks := tracks,
                playlist_index := 0, loop_playlist := loop,
                loop_track := false, queue := [],
                current := tracks.head?, elapsed := 0 }, tracks.head?)

/-- `player.set_loop_track(enabled)`: no-op when stopped; enabling it forces
`loop_playlist := false`. -/
def set_loop_track (enabled : Bool) (s : PlayerState) : PlayerState :=
  match s.current with
  | none => s
  | some _ =>
    let s1 := { s with loop_track := enabled }
    if enabled then { s1 with loop_playlist := false } else s1

/-- `player.set_loop_playlist(enabled)`: no-op outside playlist mode. -/
def set_loop_playlist (enabled : Bool) (s : PlayerState) : PlayerState :=
  if s.playlist_mode then { s with loop_playlist := enabled } else s

/-- One engine operation, as reachable through the WebSocket command
dispatcher (`src/app/websocket.py`) or module init. -/
inductive Op where
  | reset
  | enqueue (track_id : Nat)
  | dequeue (track_id : Nat)
  | play
  | pause
  | stopAll
  | skip
  | tick
  | selectTrack (track_id : Nat)
  | selectPlaylistId (playlist_id : Nat) (loop : Bool)
  | selectPlaylistName (name : String) (loop : Bool)
  | selectAlbum (album_id : Nat) (loop : Bool)
  | setLoopTrack (b : Bool)
  | setLoopPlaylist (b : Bool)

/-- The state reached by one engine operation; `none` when the operation
raises (`IndexError` out of `next_track`). -/
def stepOp (cat : Catalog) (op : Op) (s : PlayerState) : Option PlayerState :=
  match op with
  | .reset => some (reset s)
  | .enqueue i => add_to_queue cat i s
  | .dequeue i => some (remove_from_queue i s).1
  | .play => (play s).map Prod.fst
  | .pause => some (stop s)
  | .stopAll => some (stop_all s)
  | .skip => (skip s).map Prod.fst
  | .tick => (tick s).map Prod.fst
  | .selectTrack i => some (select_track cat i s).1
  | .selectPlaylistId i lp => some (select_playlist_by_id cat i lp s).1
  | .selectPlaylistName n lp => some (select_playlist_by_name cat n lp s).1
  | .selectAlbum i lp => some (select_album_by_id cat i lp s).1
  | .setLoopTrack b => some (set_loop_track b s)
  | .setLoopPlaylist b => some (set_loop_playlist b s)

/-- States reachable from the initial state by completed (non-raising)
engine operations. -/
inductive Reachable (cat : Catalog) : PlayerState → Prop where
  | init : Reachable cat initState
  | step : ∀ {s s' : PlayerState} (op : Op), Reachable cat s →
      stepOp cat op s = some s' → Reachable cat s'

/-- List-mode well-formedness: in playlist mode the backing list is
non-empty and the index is in bounds. -/
def ListInv (s : PlayerState) : Prop :=
  s.playlist_mode = true →
    s.playlist_tracks ≠ [] ∧ s.playlist_index < s.playlist_tracks.length

/-- Stopped-state normal form: with no current track, the playback fields
all sit at their reset values. -/
def StoppedInv (s : PlayerState) : Prop :=
  s.current = none →
    s.elapsed = 0 ∧ s.is_paused = false ∧ s.playlist_mode = false ∧
      s.loop_track = false ∧ s.loop_playlist = false

/-- Duration soundness: every track held by the state has positive
duration, and `elapsed` stays strictly below the current track's
duration. -/
def DurInv (s : PlayerState) : Prop :=
  (∀ t ∈ s.queue, 0 < t.duration) ∧
  (∀ t ∈ s.playlist_tracks, 0 < t.duration) ∧
  (∀ t, s.current = some t → s.elapsed < t.duration)

/-- Every track the catalog can hand out has positive duration (the spec's
"duration (positive integer seconds)"). -/
def CatPos (cat : Catalog) : Prop :=
  (∀ i t, cat.getTrack i = some t → 0 < t.duration) ∧
  (∀ i ts t, cat.playlistTracksById i = some ts → t ∈ ts → 0 < t.duration) ∧
  (∀ n ts t, cat.playlistTracksByName n = some ts → t ∈ ts → 0 < t.duration) ∧
  (∀ i ts t, cat.albumTracks i = some ts → t ∈ ts → 0 < t.duration)

/-- Models the per-connection WebSocket loops of `src/app/websocket.py`
during one wall-clock second: every open connection runs its own
`while True` loop executing `player.tick()` once per iteration (one
iteration per second), so with `n` open connections the shared player
receives `n` ticks per second. -/
def ticksInOneSecond : Nat → PlayerState → Option PlayerState
  | 0, s => some s
  | n + 1, s => (tick s).bind fun p => ticksInOneSecond n p.1

/-- Concrete fixture tracks. -/
def tA : Track := ⟨1, "alpha", 3⟩

def tB : Track := ⟨2, "beta", 2⟩

def tC : Track := ⟨3, "gamma", 1⟩

/-- A concrete catalog used for witnesses and counterexamples. -/
def cat0 : Catalog :=
  { getTrack := fun i =>
      if i = 1 then some tA else if i = 2 then some tB
      else if i = 3 then some tC else none,
    playlistTracksById := fun i => if i = 1 then some [tA, tB] else none,
    playlistTracksByName := fun n => if n = "mix" then some [tA, tB] else none,
    albumTracks := fun i => if i = 1 then some [tB, tC] else none }

/-- The state after selecting track 1 (duration 3) from the fixture
catalog. -/
def sTrackA : PlayerState := (select_track cat0 1 initState).1

/-- The state after selecting track 3 (duration 1) from the fixture
catalog. -/
def sTrackC : PlayerState := (select_track cat0 3 initState).1

/-! ## Theorems -/

/-- Claim C1 (amended): a playlist or album selection whose catalog lookup
yields a non-empty ordered track list sets `mode = LIST`
(`playlist_mode = true`), selection `{tracks, index := 0}`,
`loopPlaylist = loop`, clears the queue entirely, sets `current` to the
first track with `elapsed = 0`; `selectPlaylist` additionally sets
`paused = false` but leaves `loopTrack` unchanged, while `selectAlbum`
additionally sets `loopTrack = false` but leaves `paused` unchanged. -/
theorem select_list_establishes_list_mode (cat : Catalog) (s : PlayerState)
    (pid aid : Nat) (nm : String) (lp : Bool) (ts : List Track) :
    (cat.playlistTracksById pid = some ts → ts ≠ [] →
      select_playlist_by_id cat pid lp s =
        ({ s with playlist_mode := true, playlist_tracks := ts,
                  playlist_index := 0, loop_playlist := lp, queue := [],
                  current := ts.head?, elapsed := 0, is_paused := false },
         ts.head?)) ∧
    (cat.playlistTracksByName nm = some ts → ts ≠ [] →
      select_playlist_by_name cat nm lp s =
        ({ s with playlist_mode := true, playlist_tracks := ts,
                  playlist_index := 0, loop_playlist := lp, queue := [],
                  current := ts.head?, elapsed := 0, is_paused := false },
         ts.head?)) ∧
    (cat.albumTracks aid = some ts → ts ≠ [] →
      select_album_by_id cat aid lp s =
        ({ s with playlist_mode := true, playlist_tracks := ts,
                  playlist_index := 0, loop_playlist := lp,
                  loop_track := false, queue := [],
                  current := ts.head?, elapsed := 0 },
         ts.head?)) := by
  refine ⟨fun h hne => ?_, fun h hne => ?_, fun h hne => ?_⟩ <;>
    cases ts with
    | nil => exact absurd rfl hne
    | cons a as =>
        simp [select_playlist_by_id, select_playlist_by_name,
              select_album_by_id, selectPlaylistTracks, h]

/-- Witness for C1's theorem at the fixture catalog. -/
theorem select_list_establishes_list_mode_witness :
    cat0.playlistTracksById 1 = some [tA, tB] ∧
    select_playlist_by_id cat0 1 true initState =
      ({ initState with playlist_mode := true, playlist_tracks := [tA, tB],
                        playlist_index := 0, loop_playlist := true,
                        queue := [], current := some tA, elapsed := 0,
                        is_paused := false }, some tA) :=
  ⟨rfl,
   (select_list_establishes_list_mode cat0 initState 1 1 "mix" true
      [tA, tB]).1 rfl (by decide)⟩

/-- Counterexample to claim C1 as stated: from reachable states,
`select_playlist_by_id` leaves `loop_track` set (the claim demands
`loopTrack = false` afterwards), and `select_album_by_id` leaves
`is_paused` set (the claim demands `paused = false` afterwards). -/
theorem select_list_flags_counterexample :
    (select_playlist_by_id cat0 1 true
        (set_loop_track true sTrackA)).1.loop_track = true ∧
    (select_album_by_id cat0 1 true (stop sTrackA)).1.is_paused = true :=
  ⟨rfl, rfl⟩

/-- Claim C2 (amended): with a current track, `setLoopTrack(true)` followed
by `setLoopPlaylist(true)` leaves `loopTrack = true` (enabling
`loopPlaylist` does not clear `loopTrack`); `setLoopTrack` is a no-op when
`current` is none; enabling `loopTrack` always forces
`loopPlaylist = false`; `setLoopPlaylist` is a no-op unless
`mode = LIST`. -/
theorem loop_flag_mutual_exclusion (s : PlayerState) (b : Bool) :
    (s.current ≠ none →
      (set_loop_playlist true (set_loop_track true s)).loop_track = true) ∧
    (s.current = none → set_loop_track b s = s) ∧
    (s.current ≠ none → (set_loop_track true s).loop_track = true ∧
      (set_loop_track true s).loop_playlist = false) ∧
    (s.playlist_mode = false → set_loop_playlist b s = s) := by
  refine ⟨fun h => ?_, fun h => ?_, fun h => ?_, fun h => ?_⟩
  · cases hc : s.current with
    | none => exact absurd hc h
    | some c =>
        simp only [set_loop_track, hc, if_true]
        unfold set_loop_playlist
        split <;> rfl
  · simp [set_loop_track, h]
  · cases hc : s.current with
    | none => exact absurd hc h
    | some c => simp [set_loop_track, hc]
  · simp [set_loop_playlist, h]

/-- Witness for C2's theorem: each conjunct applied at a concrete state. -/
theorem loop_flag_mutual_exclusion_witness :
    (set_loop_playlist true (set_loop_track true sTrackA)).loop_track = true ∧
    set_loop_track true initState = initState ∧
    (set_loop_track true sTrackA).loop_playlist = false ∧
    set_loop_playlist true initState = initState :=
  ⟨(loop_flag_mutual_exclusion sTrackA true).1 (by decide),
   (loop_flag_mutual_exclusion initState true).2.1 rfl,
   ((loop_flag_mutual_exclusion sTrackA true).2.2.1 (by decide)).2,
   (loop_flag_mutual_exclusion initState true).2.2.2 rfl⟩

/-- Counterexample to claim C2 as stated: in a reachable list-mode state
with a current track, `setLoopTrack(true)` then `setLoopPlaylist(true)`
leaves `loop_track = true`, not `false` as the claim requires. -/
theorem loop_flag_counterexample :
    (set_loop_playlist true (set_loop_track true
        (select_playlist_by_id cat0 1 false initState).1)).loop_track =
      true := rfl

/-- Claim C3: `tick()` returns `current` unchanged and changes nothing when
`current` is none or `paused` (so `elapsed` is frozen while paused, and
`play()` clears `paused` so it resumes); otherwise it increments `elapsed`,
returns `current` while `elapsed < duration`, replays from 0 under
`loopTrack`, and otherwise delegates to advance-to-next. -/
theorem tick_spec_cases (s : PlayerState) (c : Track) :
    (s.current = none → tick s = some (s, none)) ∧
    (s.current = some c → s.is_paused = true → tick s = some (s, some c)) ∧
    (s.current = some c →
      play s = some ({ s with is_paused := false }, some c)) ∧
    (s.current = some c → s.is_paused = false → s.elapsed + 1 < c.duration →
      tick s = some ({ s with elapsed := s.elapsed + 1 }, some c)) ∧
    (s.current = some c → s.is_paused = false →
      ¬ s.elapsed + 1 < c.duration → s.loop_track = true →
      tick s = some ({ s with elapsed := 0 }, some c)) ∧
    (s.current = some c → s.is_paused = false →
      ¬ s.elapsed + 1 < c.duration → s.loop_track = false →
      tick s = next_track { s with elapsed := s.elapsed + 1 }) := by
  refine ⟨fun h => ?_, fun h hp => ?_, fun h => ?_, fun h hp hd => ?_,
          fun h hp hd hl => ?_, fun h hp hd hl => ?_⟩
  · simp [tick, h]
  · simp [tick, h, hp]
  · simp [play, h]
  · simp [tick, h, hp, hd]
  · simp [tick, h, hp, hd, hl]
  · simp [tick, h, hp, hd, hl]

/-- Witness for C3's theorem: every branch exercised at a concrete state
(track durations 3 and 1 from the fixture catalog). -/
theorem tick_spec_cases_witness :
    tick initState = some (initState, none) ∧
    tick (stop sTrackA) = some (stop sTrackA, some tA) ∧
    play (stop sTrackA) =
      some ({ stop sTrackA with is_paused := false }, some tA) ∧
    tick sTrackA = some ({ sTrackA with elapsed := 1 }, some tA) ∧
    tick (set_loop_track true sTrackC) =
      some ({ set_loop_track true sTrackC with elapsed := 0 }, some tC) ∧
    tick sTrackC = next_track { sTrackC with elapsed := 1 } :=
  ⟨(tick_spec_cases initState tA).1 rfl,
   (tick_spec_cases (stop sTrackA) tA).2.1 rfl rfl,
   (tick_spec_cases (stop sTrackA) tA).2.2.1 rfl,
   (tick_spec_cases sTrackA tA).2.2.2.1 rfl rfl (by decide),
   (tick_spec_cases (set_loop_track true sTrackC) tC).2.2.2.2.1 rfl rfl
     (by decide) rfl,
   (tick_spec_cases sTrackC tC).2.2.2.2.2 rfl rfl (by decide) rfl⟩

/-- Claim C4: advance-to-next (`next_track`, as delegated to by `play()`
when stopped, by `skip()`, and by `tick()` at track end) resets `elapsed`
to 0 and clears `paused`; in LIST mode it increments the index, wrapping to
0 under `loopPlaylist` or performing a full `stop_all` when the index
reaches the selection length (the incremented index persists, since
`stop_all` does not touch it), otherwise playing the entry at the new
index; in QUEUE mode it pops the queue head or performs a full
`stop_all`. -/
theorem next_track_spec_cases (s : PlayerState) (t : Track)
    (ts : List Track) :
    (s.playlist_mode = true →
      s.playlist_index + 1 < s.playlist_tracks.length →
      s.playlist_tracks[s.playlist_index + 1]? = some t →
      next_track s =
        some ({ s with elapsed := 0, is_paused := false,
                       playlist_index := s.playlist_index + 1,
                       current := some t }, some t)) ∧
    (s.playlist_mode = true →
      s.playlist_index + 1 ≥ s.playlist_tracks.length →
      s.loop_playlist = true → s.playlist_tracks[0]? = some t →
      next_track s =
        some ({ s with elapsed := 0, is_paused := false,
                       playlist_index := 0, current := some t }, some t)) ∧
    (s.playlist_mode = true →
      s.playlist_index + 1 ≥ s.playlist_tracks.length →
      s.loop_playlist = false →
      next_track s =
        some (stop_all { s with elapsed := 0, is_paused := false,
                                playlist_index := s.playlist_index + 1 },
          none)) ∧
    (s.playlist_mode = false → s.queue = t :: ts →
      next_track s =
        some ({ s with elapsed := 0, is_paused := false,
                       queue := ts, current := some t }, some t)) ∧
    (s.playlist_mode = false → s.queue = [] →
      next_track s =
        some (stop_all { s with elapsed := 0, is_paused := false },
          none)) ∧
    (s.current = none → play s = next_track s) ∧
    (skip s = next_track s) := by
  refine ⟨fun h1 h2 h3 => ?_, fun h1 h2 h3 h4 => ?_, fun h1 h2 h3 => ?_,
          fun h1 h2 => ?_, fun h1 h2 => ?_, fun h => ?_, rfl⟩
  · have h2' : ¬ s.playlist_index + 1 ≥ s.playlist_tracks.length :=
      Nat.not_le.mpr h2
    simp [next_track, h1, h2', h3]
  · simp [next_track, h1, h2, h3, h4]
  · simp [next_track, h1, h2, h3]
  · simp [next_track, h1, h2]
  · simp [next_track, h1, h2]
  · simp [play, h]

/-- Witness for C4's theorem: every branch exercised concretely. -/
theorem next_track_spec_cases_witness :
    next_track (select_playlist_by_id cat0 1 false initState).1 =
      some ({ (select_playlist_by_id cat0 1 false initState).1 with
                elapsed := 0, is_paused := false, playlist_index := 1,
                current := some tB }, some tB) ∧
    next_track { (select_playlist_by_id cat0 1 true initState).1 with
                   playlist_index := 1 } =
      some ({ (select_playlist_by_id cat0 1 true initState).1 with
                elapsed := 0, is_paused := false, playlist_index := 0,
                current := some tA }, some tA) ∧
    next_track { (select_playlist_by_id cat0 1 false initState).1 with
                   playlist_index := 1 } =
      some (stop_all
        { (select_playlist_by_id cat0 1 false initState).1 with
            playlist_index := 2, elapsed := 0, is_paused := false }, none) ∧
    next_track { sTrackA with queue := [tB] } =
      some ({ sTrackA with elapsed := 0, is_paused := false, queue := [],
                           current := some tB }, some tB) ∧
    next_track sTrackA =
      some (stop_all { sTrackA with elapsed := 0, is_paused := false },
        none) ∧
    play initState = next_track initState ∧
    skip sTrackA = next_track sTrackA := by
  refine ⟨?_, ?_, ?_, ?_, ?_, ?_, ?_⟩
  · exact (next_track_spec_cases
      (select_playlist_by_id cat0 1 false initState).1 tB []).1
      rfl (by decide) (by decide)
  · exact (next_track_spec_cases
      { (select_playlist_by_id cat0 1 true initState).1 with
        playlist_index := 1 } tA []).2.1 rfl (by decide) rfl (by decide)
  · exact (next_track_spec_cases
      { (select_playlist_by_id cat0 1 false initState).1 with
        playlist_index := 1 } tA []).2.2.1 rfl (by decide) rfl
  · exact (next_track_spec_cases { sTrackA with queue := [tB] } tB []).2.2.2.1
      rfl rfl
  · exact (next_track_spec_cases sTrackA tA []).2.2.2.2.1 rfl rfl
  · exact (next_track_spec_cases initState tA []).2.2.2.2.2.1 rfl
  · exact (next_track_spec_cases sTrackA tA []).2.2.2.2.2.2

/-- Claim C7: for every identifier or name that the catalog does not
resolve (or that resolves to an empty track list for playlist/album
selection), `add_to_queue`, `select_track`, `select_playlist_by_id`,
`select_playlist_by_name` and `select_album_by_id` leave the entire state
unchanged and return a nothing-happened result. -/
theorem notfound_noop (cat : Catalog) (s : PlayerState) (i pid aid : Nat)
    (nm : String) (lp : Bool) :
    (cat.getTrack i = none → add_to_queue cat i s = some s) ∧
    (cat.getTrack i = none → select_track cat i s = (s, none)) ∧
    (cat.playlistTracksById pid = none ∨
        cat.playlistTracksById pid = some [] →
      select_playlist_by_id cat pid lp s = (s, none)) ∧
    (cat.playlistTracksByName nm = none ∨
        cat.playlistTracksByName nm = some [] →
      select_playlist_by_name cat nm lp s = (s, none)) ∧
    (cat.albumTracks aid = none ∨ cat.albumTracks aid = some [] →
      select_album_by_id cat aid lp s = (s, none)) := by
  refine ⟨fun h => ?_, fun h => ?_, fun h => ?_, fun h => ?_, fun h => ?_⟩
  · simp [add_to_queue, h]
  · simp [select_track, h]
  · rcases h with h | h <;> simp [select_playlist_by_id, h]
  · rcases h with h | h <;> simp [select_playlist_by_name, h]
  · rcases h with h | h <;> simp [select_album_by_id, h]

/-- Witness for C7's theorem at unresolvable ids/names of the fixture
catalog. -/
theorem notfound_noop_witness :
    add_to_queue cat0 99 initState = some initState ∧
    select_track cat0 99 initState = (initState, none) ∧
    select_playlist_by_id cat0 99 false initState = (initState, none) ∧
    select_playlist_by_name cat0 "nope" false initState =
      (initState, none) ∧
    select_album_by_id cat0 99 false initState = (initState, none) :=
  ⟨(notfound_noop cat0 initState 99 99 99 "nope" false).1 rfl,
   (notfound_noop cat0 initState 99 99 99 "nope" false).2.1 rfl,
   (notfound_noop cat0 initState 99 99 99 "nope" false).2.2.1 (Or.inl rfl),
   (notfound_noop cat0 initState 99 99 99 "nope" false).2.2.2.1
     (Or.inl rfl),
   (notfound_noop cat0 initState 99 99 99 "nope" false).2.2.2.2
     (Or.inl rfl)⟩

theorem removeFirstById_not_mem {i : Nat} {l : List Track}
    (h : ∀ t ∈ l, t.id ≠ i) : removeFirstById i l = (l, false) := by
  induction l with
  | nil => rfl
  | cons a rest ih =>
      have ha : a.id ≠ i := h a (List.mem_cons_self a rest)
      simp [removeFirstById, ha,
            ih (fun t ht => h t (List.mem_cons_of_mem a ht))]

theorem removeFirstById_mem {i : Nat} {l : List Track}
    (h : ∃ t ∈ l, t.id = i) :
    ∃ l₁ t l₂, l = l₁ ++ t :: l₂ ∧ t.id = i ∧ (∀ u ∈ l₁, u.id ≠ i) ∧
      removeFirstById i l = (l₁ ++ l₂, true) := by
  induction l with
  | nil => simp at h
  | cons a rest ih =>
      by_cases ha : a.id = i
      · exact ⟨[], a, rest, by simp, ha, by simp,
          by simp [removeFirstById, ha]⟩
      · have h' : ∃ t ∈ rest, t.id = i := by
          rcases h with ⟨t, ht, hti⟩
          rcases List.mem_cons.mp ht with rfl | htr
          · exact absurd hti ha
          · exact ⟨t, htr, hti⟩
        rcases ih h' with ⟨l₁, t, l₂, hl, hti, hl₁, hr⟩
        refine ⟨a :: l₁, t, l₂, by simp [hl], hti, ?_,
          by simp [removeFirstById, ha, hr]⟩
        intro u hu
        rcases List.mem_cons.mp hu with rfl | hu'
        · exact ha
        · exact hl₁ u hu'

/-- The queue fixture used by the C8 witness. -/
def sQueue : PlayerState :=
  { initState with queue := [tA, tB, tC], current := some tB }

/-- Claim C8: `dequeue(trackId)` removes exactly the first queue entry whose
id matches and returns true, or returns false leaving the queue unchanged
when no entry matches; every other state field (`current`, `elapsed`,
`paused`, mode, loops, selection) is unchanged in both cases — even when
`trackId` equals the id of the current track. -/
theorem dequeue_spec (i : Nat) (s : PlayerState) :
    ((remove_from_queue i s).1.current = s.current ∧
     (remove_from_queue i s).1.elapsed = s.elapsed ∧
     (remove_from_queue i s).1.is_paused = s.is_paused ∧
     (remove_from_queue i s).1.playlist_mode = s.playlist_mode ∧
     (remove_from_queue i s).1.loop_track = s.loop_track ∧
     (remove_from_queue i s).1.loop_playlist = s.loop_playlist ∧
     (remove_from_queue i s).1.playlist_tracks = s.playlist_tracks ∧
     (remove_from_queue i s).1.playlist_index = s.playlist_index) ∧
    ((∀ t ∈ s.queue, t.id ≠ i) → remove_from_queue i s = (s, false)) ∧
    ((∃ t ∈ s.queue, t.id = i) →
      (remove_from_queue i s).2 = true ∧
      ∃ l₁ t l₂, s.queue = l₁ ++ t :: l₂ ∧ t.id = i ∧
        (∀ u ∈ l₁, u.id ≠ i) ∧
        (remove_from_queue i s).1.queue = l₁ ++ l₂) := by
  refine ⟨⟨rfl, rfl, rfl, rfl, rfl, rfl, rfl, rfl⟩, fun h => ?_,
    fun h => ?_⟩
  · simp [remove_from_queue, removeFirstById_not_mem h]
  · rcases removeFirstById_mem h with ⟨l₁, t, l₂, hl, hti, hl₁, hr⟩
    exact ⟨by simp [remove_from_queue, hr], l₁, t, l₂, hl, hti, hl₁,
      by simp [remove_from_queue, hr]⟩

/-- Witness for C8's theorem: a miss (id 9) and a hit (id 2, which is also
the current track's id) on a three-track queue. -/
theorem dequeue_spec_witness :
    remove_from_queue 9 sQueue = (sQueue, false) ∧
    (remove_from_queue 2 sQueue).2 = true ∧
    (remove_from_queue 2 sQueue).1.current = sQueue.current :=
  ⟨(dequeue_spec 9 sQueue).2.1 (by decide),
   ((dequeue_spec 2 sQueue).2.2 ⟨tB, by decide, rfl⟩).1,
   (dequeue_spec 2 sQueue).1.1⟩

/-- Exhaustive description of the successful outcomes of `next_track`. -/
theorem next_track_shape {s : PlayerState} {p : PlayerState × Option Track}
    (h : next_track s = some p) :
    (∃ t, s.playlist_mode = true ∧
       s.playlist_index + 1 ≥ s.playlist_tracks.length ∧
       s.loop_playlist = true ∧ s.playlist_tracks[0]? = some t ∧
       p = ({ s with elapsed := 0, is_paused := false, playlist_index := 0,
                     current := some t }, some t)) ∨
    (s.playlist_mode = true ∧
       s.playlist_index + 1 ≥ s.playlist_tracks.length ∧
       s.loop_playlist = false ∧
       p = (stop_all { s with elapsed := 0, is_paused := false,
                              playlist_index := s.playlist_index + 1 },
         none)) ∨
    (∃ t, s.playlist_mode = true ∧
       s.playlist_index + 1 < s.playlist_tracks.length ∧
       s.playlist_tracks[s.playlist_index + 1]? = some t ∧
       p = ({ s with elapsed := 0, is_paused := false,
                     playlist_index := s.playlist_index + 1,
                     current := some t }, some t)) ∨
    (s.playlist_mode = false ∧ s.queue = [] ∧
       p = (stop_all { s with elapsed := 0, is_paused := false }, none)) ∨
    (∃ t rest, s.playlist_mode = false ∧ s.queue = t :: rest ∧
       p = ({ s with elapsed := 0, is_paused := false, queue := rest,
                     current := some t }, some t)) := by
  by_cases hm : s.playlist_mode = true
  · by_cases hge : s.playlist_index + 1 ≥ s.playlist_tracks.length
    · by_cases hlp : s.loop_playlist = true
      · rcases h0 : s.playlist_tracks[0]? with _ | t
        · simp [next_track, hm, hge, hlp, h0] at h
        · simp [next_track, hm, hge, hlp, h0] at h
          refine Or.inl ⟨t, hm, hge, hlp, rfl, ?_⟩
          simp only [hm, hlp]
          exact h.symm
      · have hlp' : s.loop_playlist = false := by simpa using hlp
        simp [next_track, hm, hge, hlp'] at h
        refine Or.inr (Or.inl ⟨hm, hge, hlp', ?_⟩)
        simp only [hm, hlp']
        exact h.symm
    · rcases hi : s.playlist_tracks[s.playlist_index + 1]? with _ | t
      · simp [next_track, hm, hge, hi] at h
      · simp [next_track, hm, hge, hi] at h
        refine Or.inr (Or.inr (Or.inl
          ⟨t, hm, Nat.not_le.mp hge, rfl, ?_⟩))
        simp only [hm]
        exact h.symm
  · have hm' : s.playlist_mode = false := by simpa using hm
    rcases hq : s.queue with _ | ⟨t, rest⟩
    · simp [next_track, hm', hq] at h
      refine Or.inr (Or.inr (Or.inr (Or.inl ⟨hm', rfl, ?_⟩)))
      simp only [hm']
      exact h.symm
    · simp [next_track, hm', hq] at h
      refine Or.inr (Or.inr (Or.inr (Or.inr ⟨t, rest, hm', rfl, ?_⟩)))
      simp only [hm']
      exact h.symm

/-- `next_track` cannot raise when the list-mode invariant holds. -/
theorem next_track_isSome {s : PlayerState} (hs : ListInv s) :
    (next_track s).isSome = true := by
  by_cases hm : s.playlist_mode = true
  · rcases hs hm with ⟨hne, _⟩
    by_cases hge : s.playlist_index + 1 ≥ s.playlist_tracks.length
    · by_cases hlp : s.loop_playlist = true
      · rcases h0 : s.playlist_tracks[0]? with _ | t
        · rw [List.getElem?_eq_none_iff] at h0
          exact absurd (List.eq_nil_of_length_eq_zero (Nat.le_zero.mp h0))
            hne
        · simp [next_track, hm, hge, hlp, h0]
      · simp [next_track, hm, hge, hlp]
    · have hlt : s.playlist_index + 1 < s.playlist_tracks.length :=
        Nat.not_le.mp hge
      rcases hi : s.playlist_tracks[s.playlist_index + 1]? with _ | t
      · rw [List.getElem?_eq_none_iff] at hi
        exact absurd hlt (Nat.not_lt.mpr hi)
      · simp [next_track, hm, hge, hi]
  · rcases hq : s.queue with _ | ⟨t, rest⟩ <;> simp [next_track, hm, hq]

theorem listInv_stop_all (s : PlayerState) : ListInv (stop_all s) := by
  intro h
  simp [stop_all, reset_loops] at h

theorem stoppedInv_stop_all (s : PlayerState) : StoppedInv (stop_all s) := by
  intro _
  exact ⟨rfl, rfl, rfl, rfl, rfl⟩

theorem listInv_next_track {s : PlayerState} {p : PlayerState × Option Track}
    (h : next_track s = some p) (hs : ListInv s) : ListInv p.1 := by
  rcases next_track_shape h with
    ⟨t, hm, hge, hlp, h0, hp⟩ | ⟨hm, hge, hlp, hp⟩ | ⟨t, hm, hlt, hi, hp⟩ |
    ⟨hm, hq, hp⟩ | ⟨t, rest, hm, hq, hp⟩ <;> subst hp
  · intro _
    rcases hs hm with ⟨hne, _⟩
    exact ⟨hne, List.length_pos.mpr hne⟩
  · exact listInv_stop_all _
  · intro _
    rcases hs hm with ⟨hne, _⟩
    exact ⟨hne, hlt⟩
  · exact listInv_stop_all _
  · intro hmm
    exact (hs hmm).imp id id

theorem stoppedInv_next_track {s : PlayerState}
    {p : PlayerState × Option Track} (h : next_track s = some p) :
    StoppedInv p.1 := by
  rcases next_track_shape h with
    ⟨t, hm, hge, hlp, h0, hp⟩ | ⟨hm, hge, hlp, hp⟩ | ⟨t, hm, hlt, hi, hp⟩ |
    ⟨hm, hq, hp⟩ | ⟨t, rest, hm, hq, hp⟩ <;> subst hp
  · intro hc; simp at hc
  · exact stoppedInv_stop_all _
  · intro hc; simp at hc
  · exact stoppedInv_stop_all _
  · intro hc; simp at hc

theorem durInv_next_track {s : PlayerState} {p : PlayerState × Option Track}
    (h : next_track s = some p) (hq : ∀ t ∈ s.queue, 0 < t.duration)
    (hp : ∀ t ∈ s.playlist_tracks, 0 < t.duration) : DurInv p.1 := by
  rcases next_track_shape h with
    ⟨t, hm, hge, hlp, h0, hpp⟩ | ⟨hm, hge, hlp, hpp⟩ |
    ⟨t, hm, hlt, hi, hpp⟩ | ⟨hm, hqe, hpp⟩ | ⟨t, rest, hm, hqe, hpp⟩ <;>
    subst hpp
  · refine ⟨hq, hp, fun u hu => ?_⟩
    have hu' : t = u := by simpa using hu
    subst hu'
    exact hp t (List.getElem?_mem h0)
  · exact ⟨hq, hp, fun u hu => by simp [stop_all, reset_loops] at hu⟩
  · refine ⟨hq, hp, fun u hu => ?_⟩
    have hu' : t = u := by simpa using hu
    subst hu'
    exact hp t (List.getElem?_mem hi)
  · exact ⟨hq, hp, fun u hu => by simp [stop_all, reset_loops] at hu⟩
  · refine ⟨fun u hu => hq u (hqe ▸ List.mem_cons_of_mem t hu), hp,
      fun u hu => ?_⟩
    have hu' : t = u := by simpa using hu
    subst hu'
    exact hq t (hqe ▸ List.mem_cons_self t rest)

theorem play_eq_next_of_none {s : PlayerState} (hc : s.current = none) :
    play s = next_track s := by simp [play, hc]

theorem map_fst_eq_some {o : Option (PlayerState × Option Track)}
    {s' : PlayerState} (h : o.map Prod.fst = some s') :
    ∃ r, o = some (s', r) := by
  rcases o with _ | p
  · simp at h
  · simp at h
    exact ⟨p.2, by rw [← h]⟩

/-- Exhaustive description of the successful outcomes of `add_to_queue`. -/
theorem add_to_queue_shape {cat : Catalog} {i : Nat} {s s' : PlayerState}
    (h : add_to_queue cat i s = some s') :
    s' = s ∨
    (∃ t, cat.getTrack i = some t ∧ s.current ≠ none ∧
       s' = { s with queue := s.queue ++ [t] }) ∨
    (∃ t r, cat.getTrack i = some t ∧ s.current = none ∧
       next_track { s with queue := s.queue ++ [t] } = some (s', r)) := by
  rcases hg : cat.getTrack i with _ | t
  · simp [add_to_queue, hg] at h
    exact Or.inl h.symm
  · rcases hc : s.current with _ | c
    · simp only [add_to_queue, hg, hc] at h
      simp only [play] at h
      rcases map_fst_eq_some h with ⟨r, ho⟩
      exact Or.inr (Or.inr ⟨t, r, rfl, rfl, ho⟩)
    · simp only [add_to_queue, hg, hc, Option.some.injEq] at h
      exact Or.inr (Or.inl ⟨t, rfl, by simp, h.symm⟩)

theorem removeFirstById_mem_subset {i : Nat} :
    ∀ {l : List Track}, ∀ u ∈ (removeFirstById i l).1, u ∈ l := by
  intro l
  induction l with
  | nil => simp [removeFirstById]
  | cons a rest ih =>
      by_cases ha : a.id = i
      · simp only [removeFirstById, ha, if_true]
        intro u hu
        exact List.mem_cons_of_mem a hu
      · simp only [removeFirstById, ha, if_false]
        intro u hu
        rcases List.mem_cons.mp hu with rfl | hu'
        · exact List.mem_cons_self u rest
        · exact List.mem_cons_of_mem a (ih u hu')

theorem listInv_initState : ListInv initState := by
  intro hm
  simp [initState] at hm

/-- Every completed engine operation preserves the list-mode invariant. -/
theorem stepOp_listInv {cat : Catalog} {op : Op} {s s' : PlayerState}
    (h : stepOp cat op s = some s') (hs : ListInv s) : ListInv s' := by
  cases op with
  | reset =>
      simp [stepOp, reset] at h
      subst h
      exact listInv_initState
  | enqueue i =>
      rcases add_to_queue_shape h with h1 | ⟨t, _, _, h1⟩ | ⟨t, r, _, _, ho⟩
      · subst h1; exact hs
      · subst h1; exact hs
      · exact listInv_next_track ho hs
  | dequeue i =>
      simp [stepOp] at h
      subst h
      exact hs
  | play =>
      simp only [stepOp] at h
      rcases hc : s.current with _ | c
      · rw [play_eq_next_of_none hc] at h
        rcases map_fst_eq_some h with ⟨r, ho⟩
        exact listInv_next_track ho hs
      · simp [play, hc] at h
        subst h
        exact hs
  | pause =>
      simp [stepOp] at h
      subst h
      rcases hc : s.current with _ | c <;> simp [stop, hc] <;> exact hs
  | stopAll =>
      simp [stepOp] at h
      subst h
      exact listInv_stop_all s
  | skip =>
      simp only [stepOp, skip] at h
      rcases map_fst_eq_some h with ⟨r, ho⟩
      exact listInv_next_track ho hs
  | tick =>
      simp only [stepOp] at h
      rcases hc : s.current with _ | c
      · simp [tick, hc] at h
        subst h
        exact hs
      · by_cases hp : s.is_paused = true
        · simp [tick, hc, hp] at h
          subst h
          exact hs
        · have hp' : s.is_paused = false := by simpa using hp
          by_cases hd : s.elapsed + 1 < c.duration
          · simp [tick, hc, hp', hd] at h
            subst h
            exact hs
          · by_cases hl : s.loop_track = true
            · simp [tick, hc, hp', hd, hl] at h
              subst h
              exact hs
            · have hl' : s.loop_track = false := by simpa using hl
              simp only [tick, hc, hp', hd, hl'] at h
              simp only [if_false, Bool.false_eq_true, ite_false] at h
              rcases map_fst_eq_some h with ⟨r, ho⟩
              exact listInv_next_track ho hs
  | selectTrack i =>
      rcases hg : cat.getTrack i with _ | t <;>
        simp [stepOp, select_track, hg] at h <;> subst h
      · exact hs
      · intro hm
        simp at hm
  | selectPlaylistId i lp =>
      rcases hg : cat.playlistTracksById i with _ | ts
      · simp [stepOp, select_playlist_by_id, hg] at h
        subst h
        exact hs
      · rcases ts with _ | ⟨a, as⟩
        · simp [stepOp, select_playlist_by_id, hg] at h
          subst h
          exact hs
        · simp [stepOp, select_playlist_by_id, hg, selectPlaylistTracks] at h
          subst h
          intro _
          exact ⟨by simp, by simp⟩
  | selectPlaylistName n lp =>
      rcases hg : cat.playlistTracksByName n with _ | ts
      · simp [stepOp, select_playlist_by_name, hg] at h
        subst h
        exact hs
      · rcases ts with _ | ⟨a, as⟩
        · simp [stepOp, select_playlist_by_name, hg] at h
          subst h
          exact hs
        · simp [stepOp, select_playlist_by_name, hg,
                selectPlaylistTracks] at h
          subst h
          intro _
          exact ⟨by simp, by simp⟩
  | selectAlbum i lp =>
      rcases hg : cat.albumTracks i with _ | ts
      · simp [stepOp, select_album_by_id, hg] at h
        subst h
        exact hs
      · rcases ts with _ | ⟨a, as⟩
        · simp [stepOp, select_album_by_id, hg] at h
          subst h
          exact hs
        · simp [stepOp, select_album_by_id, hg] at h
          subst h
          intro _
          exact ⟨by simp, by simp⟩
  | setLoopTrack b =>
      simp [stepOp] at h
      subst h
      rcases hc : s.current with _ | c
      · simp [set_loop_track, hc]
        exact hs
      · simp only [set_loop_track, hc]
        split <;> exact hs
  | setLoopPlaylist b =>
      simp [stepOp] at h
      subst h
      by_cases hm : s.playlist_mode = true
      · simp only [set_loop_playlist, hm, if_true]
        intro _
        exact hs hm
      · simp [set_loop_playlist, hm]
        exact hs

theorem stoppedInv_initState : StoppedInv initState := by
  intro _
  exact ⟨rfl, rfl, rfl, rfl, rfl⟩

/-- Every completed engine operation preserves the stopped normal form. -/
theorem stepOp_stoppedInv {cat : Catalog} {op : Op} {s s' : PlayerState}
    (h : stepOp cat op s = some s') (hs : StoppedInv s) : StoppedInv s' := by
  cases op with
  | reset =>
      simp [stepOp, reset] at h
      subst h
      exact stoppedInv_initState
  | enqueue i =>
      rcases add_to_queue_shape h with h1 | ⟨t, _, hc, h1⟩ | ⟨t, r, _, _, ho⟩
      · subst h1; exact hs
      · subst h1
        intro hc'
        exact absurd hc' hc
      · exact stoppedInv_next_track ho
  | dequeue i =>
      simp [stepOp] at h
      subst h
      intro hc
      exact hs hc
  | play =>
      simp only [stepOp] at h
      rcases hc : s.current with _ | c
      · rw [play_eq_next_of_none hc] at h
        rcases map_fst_eq_some h with ⟨r, ho⟩
        exact stoppedInv_next_track ho
      · simp [play, hc] at h
        subst h
        intro hc'
        simp at hc'
  | pause =>
      simp [stepOp] at h
      subst h
      rcases hc : s.current with _ | c
      · simp [stop, hc]
        exact hs
      · simp only [stop, hc]
        intro hc'
        simp at hc'
  | stopAll =>
      simp [stepOp] at h
      subst h
      exact stoppedInv_stop_all s
  | skip =>
      simp only [stepOp, skip] at h
      rcases map_fst_eq_some h with ⟨r, ho⟩
      exact stoppedInv_next_track ho
  | tick =>
      simp only [stepOp] at h
      rcases hc : s.current with _ | c
      · simp [tick, hc] at h
        subst h
        exact hs
      · by_cases hp : s.is_paused = true
        · simp [tick, hc, hp] at h
          subst h
          exact hs
        · have hp' : s.is_paused = false := by simpa using hp
          by_cases hd : s.elapsed + 1 < c.duration
          · simp [tick, hc, hp', hd] at h
            subst h
            intro hc'
            simp at hc'
          · by_cases hl : s.loop_track = true
            · simp [tick, hc, hp', hd, hl] at h
              subst h
              intro hc'
              simp at hc'
            · have hl' : s.loop_track = false := by simpa using hl
              simp only [tick, hc, hp', hd, hl'] at h
              simp only [if_false, Bool.false_eq_true, ite_false] at h
              rcases map_fst_eq_some h with ⟨r, ho⟩
              exact stoppedInv_next_track ho
  | selectTrack i =>
      rcases hg : cat.getTrack i with _ | t <;>
        simp [stepOp, select_track, hg] at h <;> subst h
      · exact hs
      · intro hc'
        simp at hc'
  | selectPlaylistId i lp =>
      rcases hg : cat.playlistTracksById i with _ | ts
      · simp [stepOp, select_playlist_by_id, hg] at h
        subst h
        exact hs
      · rcases ts with _ | ⟨a, as⟩
        · simp [stepOp, select_playlist_by_id, hg] at h
          subst h
          exact hs
        · simp [stepOp, select_playlist_by_id, hg, selectPlaylistTracks] at h
          subst h
          intro hc'
          simp at hc'
  | selectPlaylistName n lp =>
      rcases hg : cat.playlistTracksByName n with _ | ts
      · simp [stepOp, select_playlist_by_name, hg] at h
        subst h
        exact hs
      · rcases ts with _ | ⟨a, as⟩
        · simp [stepOp, select_playlist_by_name, hg] at h
          subst h
          exact hs
        · simp [stepOp, select_playlist_by_name, hg,
                selectPlaylistTracks] at h
          subst h
          intro hc'
          simp at hc'
  | selectAlbum i lp =>
      rcases hg : cat.albumTracks i with _ | ts
      · simp [stepOp, select_album_by_id, hg] at h
        subst h
        exact hs
      · rcases ts with _ | ⟨a, as⟩
        · simp [stepOp, select_album_by_id, hg] at h
          subst h
          exact hs
        · simp [stepOp, select_album_by_id, hg] at h
          subst h
          intro hc'
          simp at hc'
  | setLoopTrack b =>
      simp [stepOp] at h
      subst h
      rcases hc : s.current with _ | c
      · simp [set_loop_track, hc]
        exact hs
      · simp only [set_loop_track, hc]
        split <;> intro hc' <;> simp at hc'
  | setLoopPlaylist b =>
      simp [stepOp] at h
      subst h
      by_cases hm : s.playlist_mode = true
      · simp only [set_loop_playlist, hm, if_true]
        intro hc'
        exact absurd hm (by simp [(hs hc').2.2.1])
      · simp [set_loop_playlist, hm]
        exact hs

theorem durInv_initState : DurInv initState := by
  refine ⟨?_, ?_, ?_⟩ <;> simp [initState]

theorem durInv_stop_all {s : PlayerState} (hq : ∀ t ∈ s.queue, 0 < t.duration)
    (hp : ∀ t ∈ s.playlist_tracks, 0 < t.duration) : DurInv (stop_all s) :=
  ⟨hq, hp, fun u hu => by simp [stop_all, reset_loops] at hu⟩

/-- Every completed engine operation preserves duration soundness, given a
catalog of positive-duration tracks. -/
theorem stepOp_durInv {cat : Catalog} (hcat : CatPos cat) {op : Op}
    {s s' : PlayerState} (h : stepOp cat op s = some s') (hs : DurInv s) :
    DurInv s' := by
  obtain ⟨hq, hp, hcur⟩ := hs
  cases op with
  | reset =>
      simp [stepOp, reset] at h
      subst h
      exact durInv_initState
  | enqueue i =>
      rcases add_to_queue_shape h with h1 | ⟨t, hg, _, h1⟩ |
        ⟨t, r, hg, _, ho⟩
      · subst h1; exact ⟨hq, hp, hcur⟩
      · subst h1
        refine ⟨fun u hu => ?_, hp, hcur⟩
        rcases List.mem_append.mp hu with hu' | hu'
        · exact hq u hu'
        · rw [List.mem_singleton.mp hu']
          exact hcat.1 i t hg
      · refine durInv_next_track ho (fun u hu => ?_) hp
        rcases List.mem_append.mp hu with hu' | hu'
        · exact hq u hu'
        · rw [List.mem_singleton.mp hu']
          exact hcat.1 i t hg
  | dequeue i =>
      simp [stepOp] at h
      subst h
      exact ⟨fun u hu => hq u (removeFirstById_mem_subset u hu), hp, hcur⟩
  | play =>
      simp only [stepOp] at h
      rcases hc : s.current with _ | c
      · rw [play_eq_next_of_none hc] at h
        rcases map_fst_eq_some h with ⟨r, ho⟩
        exact durInv_next_track ho hq hp
      · simp [play, hc] at h
        subst h
        refine ⟨hq, hp, fun u hu => ?_⟩
        have : c = u := by simpa using hu
        subst this
        exact hcur c hc
  | pause =>
      simp [stepOp] at h
      subst h
      rcases hc : s.current with _ | c
      · simp [stop, hc]
        exact ⟨hq, hp, hcur⟩
      · simp only [stop, hc]
        refine ⟨hq, hp, fun u hu => ?_⟩
        have : c = u := by simpa using hu
        subst this
        exact hcur c hc
  | stopAll =>
      simp [stepOp] at h
      subst h
      exact durInv_stop_all hq hp
  | skip =>
      simp only [stepOp, skip] at h
      rcases map_fst_eq_some h with ⟨r, ho⟩
      exact durInv_next_track ho hq hp
  | tick =>
      simp only [stepOp] at h
      rcases hc : s.current with _ | c
      · simp [tick, hc] at h
        subst h
        exact ⟨hq, hp, hcur⟩
      · by_cases hpp : s.is_paused = true
        · simp [tick, hc, hpp] at h
          subst h
          exact ⟨hq, hp, hcur⟩
        · have hp' : s.is_paused = false := by simpa using hpp
          by_cases hd : s.elapsed + 1 < c.duration
          · simp [tick, hc, hp', hd] at h
            subst h
            refine ⟨hq, hp, fun u hu => ?_⟩
            have : c = u := by simpa using hu
            subst this
            exact hd
          · by_cases hl : s.loop_track = true
            · simp [tick, hc, hp', hd, hl] at h
              subst h
              refine ⟨hq, hp, fun u hu => ?_⟩
              have : c = u := by simpa using hu
              subst this
              exact Nat.lt_of_le_of_lt (Nat.zero_le s.elapsed) (hcur c hc)
            · have hl' : s.loop_track = false := by simpa using hl
              simp only [tick, hc, hp', hd, hl'] at h
              simp only [if_false, Bool.false_eq_true, ite_false] at h
              rcases map_fst_eq_some h with ⟨r, ho⟩
              exact durInv_next_track ho hq hp
  | selectTrack i =>
      rcases hg : cat.getTrack i with _ | t <;>
        simp [stepOp, select_track, hg] at h <;> subst h
      · exact ⟨hq, hp, hcur⟩
      · refine ⟨hq, hp, fun u hu => ?_⟩
        have : t = u := by simpa using hu
        subst this
        exact hcat.1 i t hg
  | selectPlaylistId i lp =>
      rcases hg : cat.playlistTracksById i with _ | ts
      · simp [stepOp, select_playlist_by_id, hg] at h
        subst h
        exact ⟨hq, hp, hcur⟩
      · rcases ts with _ | ⟨a, as⟩
        · simp [stepOp, select_playlist_by_id, hg] at h
          subst h
          exact ⟨hq, hp, hcur⟩
        · simp [stepOp, select_playlist_by_id, hg, selectPlaylistTracks] at h
          subst h
          refine ⟨by simp, fun u hu => hcat.2.1 i (a :: as) u hg hu,
            fun u hu => ?_⟩
          have : a = u := by simpa using hu
          subst this
          exact hcat.2.1 i (a :: as) a hg (List.mem_cons_self a as)
  | selectPlaylistName n lp =>
      rcases hg : cat.playlistTracksByName n with _ | ts
      · simp [stepOp, select_playlist_by_name, hg] at h
        subst h
        exact ⟨hq, hp, hcur⟩
      · rcases ts with _ | ⟨a, as⟩
        · simp [stepOp, select_playlist_by_name, hg] at h
          subst h
          exact ⟨hq, hp, hcur⟩
        · simp [stepOp, select_playlist_by_name, hg,
                selectPlaylistTracks] at h
          subst h
          refine ⟨by simp, fun u hu => hcat.2.2.1 n (a :: as) u hg hu,
            fun u hu => ?_⟩
          have : a = u := by simpa using hu
          subst this
          exact hcat.2.2.1 n (a :: as) a hg (List.mem_cons_self a as)
  | selectAlbum i lp =>
      rcases hg : cat.albumTracks i with _ | ts
      · simp [stepOp, select_album_by_id, hg] at h
        subst h
        exact ⟨hq, hp, hcur⟩
      · rcases ts with _ | ⟨a, as⟩
        · simp [stepOp, select_album_by_id, hg] at h
          subst h
          exact ⟨hq, hp, hcur⟩
        · simp [stepOp, select_album_by_id, hg] at h
          subst h
          refine ⟨by simp, fun u hu => hcat.2.2.2 i (a :: as) u hg hu,
            fun u hu => ?_⟩
          have : a = u := by simpa using hu
          subst this
          exact hcat.2.2.2 i (a :: as) a hg (List.mem_cons_self a as)
  | setLoopTrack b =>
      simp [stepOp] at h
      subst h
      rcases hc : s.current with _ | c
      · simp [set_loop_track, hc]
        exact ⟨hq, hp, hcur⟩
      · simp only [set_loop_track, hc]
        split
        · refine ⟨hq, hp, fun u hu => ?_⟩
          have : c = u := by simpa using hu
          subst this
          exact hcur c hc
        · refine ⟨hq, hp, fun u hu => ?_⟩
          have : c = u := by simpa using hu
          subst this
          exact hcur c hc
  | setLoopPlaylist b =>
      simp [stepOp] at h
      subst h
      by_cases hm : s.playlist_mode = true
      · simp only [set_loop_playlist, hm, if_true]
        exact ⟨hq, hp, hcur⟩
      · simp [set_loop_playlist, hm]
        exact ⟨hq, hp, hcur⟩

theorem isSome_map_fst (o : Option (PlayerState × Option Track)) :
    (o.map Prod.fst).isSome = o.isSome := by cases o <;> rfl

/-- No engine operation can raise from a state satisfying the list-mode
invariant. -/
theorem stepOp_isSome {cat : Catalog} {s : PlayerState} (hs : ListInv s)
    (op : Op) : (stepOp cat op s).isSome = true := by
  cases op with
  | reset => rfl
  | enqueue i =>
      rcases hg : cat.getTrack i with _ | t
      · simp [stepOp, add_to_queue, hg]
      · rcases hc : s.current with _ | c
        · simp only [stepOp, add_to_queue, hg, hc]
          simp only [play]
          rw [isSome_map_fst]
          exact next_track_isSome hs
        · simp [stepOp, add_to_queue, hg, hc]
  | dequeue i => rfl
  | play =>
      rcases hc : s.current with _ | c
      · simp only [stepOp]
        rw [play_eq_next_of_none hc, isSome_map_fst]
        exact next_track_isSome hs
      · simp [stepOp, play, hc]
  | pause => rfl
  | stopAll => rfl
  | skip =>
      simp only [stepOp, skip]
      rw [isSome_map_fst]
      exact next_track_isSome hs
  | tick =>
      rcases hc : s.current with _ | c
      · simp [stepOp, tick, hc]
      · by_cases hp : s.is_paused = true
        · simp [stepOp, tick, hc, hp]
        · have hp' : s.is_paused = false := by simpa using hp
          by_cases hd : s.elapsed + 1 < c.duration
          · simp [stepOp, tick, hc, hp', hd]
          · by_cases hl : s.loop_track = true
            · simp [stepOp, tick, hc, hp', hd, hl]
            · have hl' : s.loop_track = false := by simpa using hl
              simp only [stepOp, tick, hc, hp', hd, hl']
              simp only [if_false, Bool.false_eq_true, ite_false]
              rw [isSome_map_fst]
              exact next_track_isSome hs
  | selectTrack i => rfl
  | selectPlaylistId i lp => rfl
  | selectPlaylistName n lp => rfl
  | selectAlbum i lp => rfl
  | setLoopTrack b => rfl
  | setLoopPlaylist b => rfl

theorem reachable_listInv {cat : Catalog} {s : PlayerState}
    (h : Reachable cat s) : ListInv s := by
  induction h with
  | init => exact listInv_initState
  | step op hr hst ih => exact stepOp_listInv hst ih

theorem reachable_stoppedInv {cat : Catalog} {s : PlayerState}
    (h : Reachable cat s) : StoppedInv s := by
  induction h with
  | init => exact stoppedInv_initState
  | step op hr hst ih => exact stepOp_stoppedInv hst ih

theorem reachable_durInv {cat : Catalog} (hcat : CatPos cat)
    {s : PlayerState} (h : Reachable cat s) : DurInv s := by
  induction h with
  | init => exact durInv_initState
  | step op hr hst ih => exact stepOp_durInv hcat hst ih

theorem cat0_pos : CatPos cat0 := by
  refine ⟨?_, ?_, ?_, ?_⟩
  · intro i t h
    simp only [cat0] at h
    split_ifs at h <;> (injection h with h'; subst h'; decide)
  · intro i ts t h ht
    simp only [cat0] at h
    split_ifs at h
    injection h with h'
    subst h'
    fin_cases ht <;> decide
  · intro n ts t h ht
    simp only [cat0] at h
    split_ifs at h
    injection h with h'
    subst h'
    fin_cases ht <;> decide
  · intro i ts t h ht
    simp only [cat0] at h
    split_ifs at h
    injection h with h'
    subst h'
    fin_cases ht <;> decide

/-- Claim C5: assuming every catalog track has a positive integer duration,
in every reachable state with a current track the invariant
`elapsed < current.duration` holds after every completed engine operation
(`elapsed` is a natural number, so `0 ≤ elapsed` is inherent). -/
theorem elapsed_lt_duration (cat : Catalog) (hcat : CatPos cat)
    (s : PlayerState) (h : Reachable cat s) (t : Track)
    (hc : s.current = some t) : s.elapsed < t.duration :=
  (reachable_durInv hcat h).2.2 t hc

/-- Witness for C5's theorem: the reachable state after `select_track 1`. -/
theorem elapsed_lt_duration_witness : sTrackA.elapsed < tA.duration :=
  elapsed_lt_duration cat0 cat0_pos sTrackA
    (Reachable.step (Op.selectTrack 1) Reachable.init rfl) tA rfl

/-- Claim C9: whenever a reachable engine state is stopped
(`current = none`), it also has `elapsed = 0`, `paused = false`,
`mode = QUEUE` (`playlist_mode = false`) and both loop flags false; this
holds in the initial state and is preserved by every engine operation, so
a STOPPED snapshot always reports elapsed 0 and both loop flags false. -/
theorem stopped_normal_form (cat : Catalog) (s : PlayerState)
    (h : Reachable cat s) (hc : s.current = none) :
    s.elapsed = 0 ∧ s.is_paused = false ∧ s.playlist_mode = false ∧
      s.loop_track = false ∧ s.loop_playlist = false :=
  reachable_stoppedInv h hc

/-- Witness for C9's theorem: the initial (stopped) state. -/
theorem stopped_normal_form_witness :
    initState.elapsed = 0 ∧ initState.is_paused = false ∧
      initState.playlist_mode = false ∧ initState.loop_track = false ∧
      initState.loop_playlist = false :=
  stopped_normal_form cat0 initState Reachable.init rfl

/-- Claim C10: in every reachable state with `mode = LIST` the selection
track list is non-empty and the index is strictly within bounds, and
consequently no engine operation (in particular the list indexing inside
`next_track`, including the wrap-to-0 branch under `loopPlaylist`) can
raise from a reachable state. -/
theorem list_mode_safe (cat : Catalog) (s : PlayerState)
    (h : Reachable cat s) :
    (s.playlist_mode = true →
      s.playlist_tracks ≠ [] ∧
        s.playlist_index < s.playlist_tracks.length) ∧
    (∀ op, (stepOp cat op s).isSome = true) :=
  ⟨reachable_listInv h, fun op => stepOp_isSome (reachable_listInv h) op⟩

/-- The list-mode state reached by selecting playlist 1 with loop on. -/
def sListMode : PlayerState := (select_playlist_by_id cat0 1 true initState).1

/-- Witness for C10's theorem at a concrete reachable list-mode state. -/
theorem list_mode_safe_witness :
    sListMode.playlist_tracks ≠ [] ∧
      (stepOp cat0 Op.skip sListMode).isSome = true :=
  ⟨((list_mode_safe cat0 sListMode
      (Reachable.step (Op.selectPlaylistId 1 true) Reachable.init rfl)).1
      rfl).1,
   (list_mode_safe cat0 sListMode
      (Reachable.step (Op.selectPlaylistId 1 true) Reachable.init rfl)).2
      Op.skip⟩

/-- Claim C6 is refuted by the code: each open WebSocket connection runs
its own endpoint loop which calls `player.tick()` once per iteration
(about once per second), so during one wall-clock second a playing track
advances by the number of open connections, not by exactly one.  Here:
from the playing state `sTrackA` (track duration 3, elapsed 0), one
connected client advances `elapsed` to 1 in a second, but two connected
clients advance it to 2 in the same second. -/
theorem tick_multiplication_bug :
    (ticksInOneSecond 1 sTrackA).map PlayerState.elapsed = some 1 ∧
    (ticksInOneSecond 2 sTrackA).map PlayerState.elapsed = some 2 :=
  ⟨rfl, rfl⟩

end PlaylistManager
